import Mathlib

/-!
Verification development for the csvhandler library: a shallow embedding of
the Record / Reader / Writer / Formatter components together with theorems
settling the specification claims.

Go values stored in records (`interface{}`) are modelled by a closed sum
`Value` over the kinds exercised by the claims (string, int, bool); Go's
`fmt.Sprintf("%v", x)` on these kinds is modelled by `render`.  Fallible Go
functions returning `(T, error)` are modelled with `Except`; a Go runtime
panic is modelled by an explicit `panicked` outcome.  Go maps keyed by
column name are modelled as functions `String → Option _` updated
pointwise, which matches the source's insert/lookup usage.
-/

namespace Csvhandler

/-- Closed sum of the dynamically typed Go values (`interface{}`) the claims
exercise: strings, integers and booleans. -/
inductive Value where
| str (s : String)
| int (n : Int)
| bool (b : Bool)
deriving DecidableEq

/-- Go `fmt.Sprintf("%v", v)` restricted to the kinds of `Value`:
strings as-is, integers in decimal, booleans as `true`/`false`. -/
def render : Value → String
| .str s => s
| .int n => toString n
| .bool b => if b then "true" else "false"

/-- `Formatter` (formatter.go): a function from a value to its formatted
string, or an error (the Go error is modelled by its message string). -/
def Formatter : Type := Value → Except String String

/-- `defaultFormatter` (formatter.go): renders the value with a basic
`fmt.Sprintf("%v", value)` and never fails. -/
def defaultFormatter : Formatter := fun value => .ok (render value)

/-- `StringFormatter` (formatter.go), modelled for format strings that
consist of a prefix, a single `%v` verb, and a suffix: the Go closure
returns `fmt.Sprintf(format, value)`, which for such formats is
`pre ++ render value ++ suf`, and never fails. -/
def StringFormatter (pre suf : String) : Formatter :=
fun value => .ok (pre ++ render value ++ suf)

/-- `TimeFormatter` (formatter.go): only `time.Time` and `*time.Time`
values are accepted; every kind of `Value` in this embedding is a
non-time value, so the returned formatter always fails with the
"is not a time" error, exactly as the Go `default` branch does. -/
def TimeFormatter (layout : String) : Formatter :=
fun value =>
  match layout with
  | _ => .error (render value ++ " is not a time")

/-- The loop body of `chainFormatter` (formatter.go): the last formatter's
result is returned directly; an intermediate failure short-circuits with
that error; an intermediate success feeds its output string into the next
formatter; with no formatters the loop falls through to `return "", nil`. -/
def chainRun : List Formatter → Value → Except String String
| [], _ => .ok ""
| [f], value => f value
| f :: g :: rest, value =>
  match f value with
  | .error e => .error e
  | .ok val => chainRun (g :: rest) (.str val)

/-- `chainFormatter` (formatter.go): composes a list of formatters via
`chainRun`. -/
def chainFormatter (formatters : List Formatter) : Formatter :=
fun value => chainRun formatters value

/-- The shared `var f Formatter; if len==1 ... else if len>1 ...` prologue
of `Record.Set`, `Writer.SetDefault` and `Writer.SetFormatter`: zero
formatters leave `f` nil, one is used as-is, several are chained. -/
def mkFormatterOpt : List Formatter → Option Formatter
| [] => none
| [f] => some f
| fs => some (chainFormatter fs)

/-- `field` (record.go): a value together with an optional formatter. -/
structure Field where
value : Value
formatter : Option Formatter

/-- Write-path `Record` (record.go): a map from column name to `field`. -/
structure Record where
fields : String → Option Field

/-- `NewRecord` (record.go): an empty record. -/
def NewRecord : Record := ⟨fun _ => none⟩

/-- `Record.Set` (record.go): stores the value and the optional chained
formatter under the key, overriding any previous entry. -/
def Record.set (r : Record) (key : String) (value : Value)
    (formatter : List Formatter) : Record :=
⟨fun k => if k = key then some ⟨value, mkFormatterOpt formatter⟩ else r.fields k⟩

/-- Errors returned by the record getters (errors.go):
`ErrUnknownKey` and `ErrWrongType` (the wrapped parse error is dropped). -/
inductive GetErr where
| unknownKey (key : String)
| wrongType (key : String)
deriving DecidableEq

/-- `Record.Get` (record.go): `ErrUnknownKey` when the key was never set;
otherwise a `string` value is returned as-is and any other value goes
through `defaultFormatter` (which always succeeds with `render v`, so the
result is `.ok`).  The entry's stored formatter is not consulted. -/
def Record.get (r : Record) (key : String) : Except GetErr String :=
match r.fields key with
| none => .error (.unknownKey key)
| some f =>
  match f.value with
  | .str v => .ok v
  | v => .ok (render v)

/-- `strconv.ParseInt(s, 10, 64)` (Go standard library, as used by
`Record.GetInt64`): optional sign, one or more decimal digits, value
within the signed 64-bit range; `none` models any parse error.  The
string is processed through its character list so the definition reduces
in the kernel. -/
def parseInt64 (s : String) : Option Int :=
let signed : Bool × List Char :=
  match s.data with
  | '-' :: t => (true, t)
  | '+' :: t => (false, t)
  | t => (false, t)
match signed.2 with
| [] => none
| ds =>
  if ds.all (fun c => c.isDigit) then
    let n : Nat := ds.foldl (fun acc c => 10 * acc + (c.toNat - 48)) 0
    let v : Int := if signed.1 then -(n : Int) else (n : Int)
    if -(2 ^ 63) ≤ v ∧ v ≤ 2 ^ 63 - 1 then some v else none
  else none

/-- `Record.GetInt64` (record.go): `Get`, then `strconv.ParseInt` base 10;
a parse failure becomes `ErrWrongType`. -/
def Record.getInt64 (r : Record) (key : String) : Except GetErr Int :=
match r.get key with
| .error e => .error e
| .ok v =>
  match parseInt64 v with
  | some i => .ok i
  | none => .error (.wrongType key)

/-- `Record.GetInt` (record.go): `GetInt64` followed by the identity
conversion `int(i)` (64-bit platform). -/
def Record.getInt (r : Record) (key : String) : Except GetErr Int :=
r.getInt64 key

/-- Construction-time errors (errors.go): `ErrDuplicateKey`, plus the
errors the wrapped `encoding/csv` codec reports to `NewReader` / `Read`:
end of stream (`io.EOF`), an I/O or parse error (carried as its message),
and `csv.ErrFieldCount`. -/
inductive Err where
| duplicateKey (key : String)
| eof
| ioErr (e : String)
| errFieldCount
deriving DecidableEq

/-- The duplicate scan shared by `NewWriter` (writer.go) and `NewReader`
(reader.go): walk the header keeping a set of seen names and stop at the
first name already seen. -/
def findDuplicate (seen : List String) : List String → Option String
| [] => none
| h :: t => if h ∈ seen then some h else findDuplicate (h :: seen) t

/-- `Writer` (writer.go): the declared header, the per-column defaults
(`map[string]field`), the per-column formatters (`map[string]Formatter`)
and the `EmptyValue` fallback string.  The codec and mutex are not part of
the value-level state. -/
structure Writer where
header : List String
defaults : String → Option Field
formatters : String → Option Formatter
emptyValue : String

/-- The `Writer` value `NewWriter` builds once the duplicate check has
passed: given header, empty maps, `EmptyValue` = `defaultEmptyValue` = "". -/
def mkWriter (header : List String) : Writer :=
⟨header, fun _ => none, fun _ => none, ""⟩

/-- `NewWriter` (writer.go): fails with `ErrDuplicateKey` on the first
repeated header name, otherwise returns the fresh `Writer`. -/
def NewWriter (header : List String) : Except Err Writer :=
match findDuplicate [] header with
| some k => .error (.duplicateKey k)
| none => .ok (mkWriter header)

/-- `Writer.SetDefault` (writer.go): registers the fallback value and
optional chained formatter for the key. -/
def Writer.setDefault (w : Writer) (key : String) (value : Value)
    (formatter : List Formatter) : Writer :=
{ w with defaults :=
    fun k => if k = key then some ⟨value, mkFormatterOpt formatter⟩ else w.defaults k }

/-- `Writer.SetFormatter` (writer.go): zero formatters is a no-op, one is
stored as-is, several are chained. -/
def Writer.setFormatter (w : Writer) (key : String) (formatter : List Formatter) :
    Writer :=
match formatter with
| [] => w
| [f] =>
  { w with formatters := fun k => if k = key then some f else w.formatters k }
| fs =>
  { w with formatters :=
      fun k => if k = key then some (chainFormatter fs) else w.formatters k }

/-- `Writer.getFormattedValue` (writer.go): value and formatter start as
`EmptyValue` / nil, are replaced by the record's field if present, else by
the column's registered default if present; a nil formatter falls back to
`defaultFormatter`; a registered column formatter is chained after; the
effective formatter is applied to the value. -/
def Writer.getFormattedValue (w : Writer) (record : Record) (column : String) :
    Except String String :=
let vf : Value × Option Formatter :=
  match record.fields column with
  | some fld => (fld.value, fld.formatter)
  | none =>
    match w.defaults column with
    | some defValue => (defValue.value, defValue.formatter)
    | none => (Value.str w.emptyValue, none)
let f : Formatter :=
  match vf.2 with
  | none => defaultFormatter
  | some f => f
let f2 : Formatter :=
  match w.formatters column with
  | some formatter => chainFormatter [f, formatter]
  | none => f
f2 vf.1

/-- The loop of `Writer.Write` (writer.go): resolve each header column in
declared order through `getFormattedValue`, returning the first resolution
error, otherwise the assembled row. -/
def Writer.resolveRow (w : Writer) (r : Record) : List String → Except String (List String)
| [] => .ok []
| c :: cs =>
  match w.getFormattedValue r c with
  | .error e => .error e
  | .ok v =>
    match Writer.resolveRow w r cs with
    | .error e => .error e
    | .ok vs => .ok (v :: vs)

/-- `Writer.Write` (writer.go) with the rows handed to the underlying
`csv.Writer` made explicit: the codec receives the row only after every
column resolved; a resolution error is returned with nothing written.
First component: rows written to the codec; second: the returned error. -/
def Writer.writeTrace (w : Writer) (r : Record) :
    List (List String) × Option String :=
match Writer.resolveRow w r w.header with
| .error e => ([], some e)
| .ok row => ([row], none)

/-- One step of the wrapped `encoding/csv.Reader` input stream: a parsed
row of fields, or a read failure carried as its message. End of stream is
the end of the list. -/
inductive RawItem where
| row (fields : List String)
| ioError (e : String)
deriving DecidableEq

/-- `encoding/csv.Reader.Read` with `FieldsPerRecord = n` (Go standard
library, as used by reader.go): end of stream gives `(nil, io.EOF)`, an
I/O or parse failure gives `(nil, err)`, and a parsed row is returned in
full together with `csv.ErrFieldCount` when its length differs from `n`.
Result: the returned record (empty list models Go's nil record), the
returned error, and the remaining stream. -/
def csvRead (n : Nat) : List RawItem → (List String × Option Err) × List RawItem
| [] => (([], some .eof), [])
| .ioError e :: rest => (([], some (.ioErr e)), rest)
| .row fs :: rest =>
  ((fs, if fs.length = n then none else some .errFieldCount), rest)

/-- The field-building loop of `Reader.Read` (reader.go):
`for i, v := range record` assigns `fields[r.header[i]] = v`; indexing the
header out of range is a runtime panic, modelled as `none`. -/
def buildFields : List String → List String → Option (List (String × String))
| _, [] => some []
| [], _ :: _ => none
| h :: hs, v :: vs =>
  match buildFields hs vs with
  | none => none
  | some rest => some ((h, v) :: rest)

/-- The read Record built by `Reader.Read` (reader.go): each raw field
string becomes a string-valued entry with no formatter, giving a Record
the record.go getters apply to. -/
def recordOfFields (fields : List (String × String)) : Record :=
⟨fun k =>
  match fields.lookup k with
  | some v => some ⟨Value.str v, none⟩
  | none => none⟩

/-- Outcome of `Reader.Read` (reader.go): either a runtime panic, or the
pair the Go function returns — the (always allocated) Record's field list
together with the error value, both possibly set at once. -/
inductive ReadOutcome where
| panicked
| result (fields : List (String × String)) (err : Option Err)
deriving DecidableEq

/-- `Reader.Read` (reader.go): sets `FieldsPerRecord` to the header
length, reads one codec row, then builds the name-to-value map from
whatever record came back — also when an error came with it — and returns
the Record together with that error.  A row longer than the header makes
the loop index the header out of range (a panic). -/
def Reader.read (header : List String) (stream : List RawItem) :
    ReadOutcome × List RawItem :=
let step := csvRead header.length stream
match buildFields header step.1.1 with
| none => (.panicked, step.2)
| some fields => (.result fields step.1.2, step.2)

/-- `NewReader` (reader.go): an empty supplied header makes the reader
take the first codec row as header (any read failure there propagates);
either way the header is checked for duplicates.  Returns the reader's
header and the remaining stream. -/
def NewReader (header : List String) (stream : List RawItem) :
    Except Err (List String × List RawItem) :=
let hs : Except Err (List String × List RawItem) :=
  match header with
  | [] =>
    match stream with
    | [] => .error .eof
    | .ioError e :: _ => .error (.ioErr e)
    | .row fs :: rest => .ok (fs, rest)
  | _ => .ok (header, stream)
match hs with
| .error e => .error e
| .ok (h, rest) =>
  match findDuplicate [] h with
  | some k => .error (.duplicateKey k)
  | none => .ok (h, rest)

/-- `Reader.Read` in the revision carrying `ReadAll` (the second document
of record_test.go): any error from the codec row — including a field-count
mismatch, checked against the header length — is returned with a nil
Record; otherwise the row (now known to match the header's length) is
zipped with the header into the field map. -/
def readV2Item (header : List String) : RawItem → Except Err (List (String × String))
| .ioError e => .error (.ioErr e)
| .row fs =>
  if fs.length = header.length then .ok (header.zip fs) else .error .errFieldCount

/-- `Reader.ReadAll` (second document of record_test.go): loop `Read`
until it returns `io.EOF` (the stream is exhausted), collecting the
records; end of stream returns everything read so far with no error,
any other error is returned with the partial records discarded. -/
def Reader.readAll (header : List String) : List RawItem → Except Err (List (List (String × String)))
| [] => .ok []
| item :: rest =>
  match readV2Item header item with
  | .error e => .error e
  | .ok r =>
    match Reader.readAll header rest with
    | .error e => .error e
    | .ok rs => .ok (r :: rs)

/-- Read-path `Record` of src/unnamed/part_002: a shared header-to-index
table (`map[string]int`) plus the row's value sequence. -/
structure ReadRecord where
headers : String → Option Int
values : List String

/-- Outcome of `ReadRecord.Get`: a value, `ErrUnknownKey`,
`ErrOutOfBounds`, or a runtime panic from indexing the value slice. -/
inductive GetOutcome where
| ok (s : String)
| unknownKey (key : String)
| outOfBounds (key : String) (index : Int)
| panicked
deriving DecidableEq

/-- `Record.Get` of src/unnamed/part_002: `ErrUnknownKey` for a name
absent from the header table; `ErrOutOfBounds` when the stored index `i`
satisfies `i < 0 || i > len(values)`; otherwise `values[i]` — which for
`i = len(values)` (not rejected by the guard) is an out-of-range slice
access, a runtime panic. -/
def ReadRecord.get (r : ReadRecord) (key : String) : GetOutcome :=
match r.headers key with
| none => .unknownKey key
| some i =>
  if i < 0 ∨ i > (r.values.length : Int) then .outOfBounds key i
  else
    match r.values.get? i.toNat with
    | some v => .ok v
    | none => .panicked

/-- `encoding/csv.Writer.fieldNeedsQuotes` (Go standard library) for the
comma delimiter and ASCII leading-space check: empty fields and plain
fields need no quotes; a lone `\.`, a field containing the delimiter, a
quote, CR or LF, or starting with a space or tab, is quoted. -/
def fieldNeedsQuotes (f : String) : Bool :=
match f.data with
| [] => false
| c :: cs =>
  if c :: cs = ['\\', '.'] then true
  else if (c :: cs).any (fun x => x = ',' || x = '"' || x = '\r' || x = '\n') then true
  else c = ' ' || c = '\t'

/-- Quote escaping of `encoding/csv.Writer.Write` (Go standard library):
each double quote inside a quoted field is doubled. -/
def escapeQuotes : List Char → List Char
| [] => []
| c :: cs => if c = '"' then '"' :: '"' :: escapeQuotes cs else c :: escapeQuotes cs

/-- Field encoding of `encoding/csv.Writer.Write` (Go standard library):
a field needing quotes is wrapped in double quotes with inner quotes
doubled, otherwise written as-is. -/
def encodeField (f : String) : String :=
if fieldNeedsQuotes f then String.mk ('"' :: escapeQuotes f.data ++ ['"']) else f

/-- Comma-joining of fields on one output line. -/
def joinComma : List (List Char) → List Char
| [] => []
| [f] => f
| f :: g :: rest => f ++ ',' :: joinComma (g :: rest)

/-- The line `encoding/csv.Writer.Write` emits for one row, with the comma
delimiter and `UseCRLF = false`: encoded fields joined by commas, then a
final `\n`. -/
def csvWriteLine (fields : List String) : String :=
String.mk (joinComma (fields.map (fun f => (encodeField f).data)) ++ ['\n'])

/-- Splitting a quote-free line body at commas. -/
def splitComma (acc : List Char) : List Char → List String
| [] => [String.mk acc.reverse]
| c :: cs =>
  if c = ',' then String.mk acc.reverse :: splitComma [] cs
  else splitComma (c :: acc) cs

/-- `encoding/csv.Reader` row parsing restricted to lines whose fields
contain no quote, delimiter or CR/LF characters: strip the final newline
and split the body at the comma delimiter. -/
def csvParseSimpleLine (line : String) : List String :=
let body : List Char :=
  if line.data.getLast? = some '\n' then line.data.dropLast else line.data
splitComma [] body

/-- The field resolution algorithm as the spec words it (§4.4 steps 1-6),
written for comparison with `Writer.getFormattedValue`: start with the
empty-value fallback and no formatter; replace both by the record's
explicit entry, else by the registered default; fall back to the default
formatter when none resulted; chain the column-level formatter last;
apply. -/
def specResolveField (w : Writer) (r : Record) (c : String) : Except String String :=
let start : Value × Option Formatter := (Value.str w.emptyValue, none)
let resolved : Value × Option Formatter :=
  match r.fields c with
  | some entry => (entry.value, entry.formatter)
  | none =>
    match w.defaults c with
    | some d => (d.value, d.formatter)
    | none => start
let fmt : Formatter :=
  match resolved.2 with
  | none => defaultFormatter
  | some f => f
let eff : Formatter :=
  match w.formatters c with
  | some g => chainFormatter [fmt, g]
  | none => fmt
eff resolved.1

/-! ## Helper lemmas -/

theorem findDuplicate_none_iff (seen l : List String) :
    findDuplicate seen l = none ↔ l.Nodup ∧ ∀ x ∈ l, x ∉ seen := by
  induction l generalizing seen with
  | nil => simp [findDuplicate]
  | cons h t ih =>
    by_cases hmem : h ∈ seen
    · simp only [findDuplicate, if_pos hmem]
      constructor
      · intro hc; exact absurd hc (by simp)
      · rintro ⟨-, hall⟩
        exact absurd hmem (hall h (List.mem_cons_self h t))
    · simp only [findDuplicate, if_neg hmem]
      rw [ih]
      constructor
      · rintro ⟨hnd, hall⟩
        have hht : h ∉ t := fun hc => (hall h hc) (List.mem_cons_self h seen)
        refine ⟨List.nodup_cons.mpr ⟨hht, hnd⟩, ?_⟩
        intro x hx hxs
        rcases List.mem_cons.mp hx with hx1 | hx2
        · subst hx1; exact hmem hxs
        · exact (hall x hx2) (List.mem_cons_of_mem h hxs)
      · rintro ⟨hnd, hall⟩
        obtain ⟨hht, hnd2⟩ := List.nodup_cons.mp hnd
        refine ⟨hnd2, ?_⟩
        intro x hx hxs
        rcases List.mem_cons.mp hxs with hx1 | hx2
        · subst hx1; exact hht hx
        · exact hall x (List.mem_cons_of_mem h hx) hx2

theorem findDuplicate_some (seen l : List String) (k : String) :
    findDuplicate seen l = some k → (k ∈ seen ∧ k ∈ l) ∨ 2 ≤ l.count k := by
  induction l generalizing seen with
  | nil => intro h; simp [findDuplicate] at h
  | cons h t ih =>
    intro hfd
    by_cases hmem : h ∈ seen
    · simp only [findDuplicate, hmem, if_pos, Option.some.injEq] at hfd
      subst hfd
      exact Or.inl ⟨hmem, List.mem_cons_self _ _⟩
    · simp only [findDuplicate, hmem, if_neg, ite_false] at hfd
      rcases ih (h :: seen) hfd with ⟨hks, hkt⟩ | hcount
      · rcases List.mem_cons.mp hks with hk1 | hk2
        · subst hk1
          right
          have h1 : 0 < t.count k := List.count_pos_iff.mpr hkt
          simp only [List.count_cons_self]
          omega
        · exact Or.inl ⟨hk2, List.mem_cons_of_mem h hkt⟩
      · right
        calc 2 ≤ t.count k := hcount
        _ ≤ (h :: t).count k := List.count_le_count_cons k h t

theorem resolveRow_error_of (w : Writer) (r : Record) (cols : List String)
    (h : ∃ c ∈ cols, ∃ e, w.getFormattedValue r c = .error e) :
    ∃ c ∈ cols, ∃ e, w.getFormattedValue r c = .error e ∧
      Writer.resolveRow w r cols = .error e := by
  induction cols with
  | nil => simp at h
  | cons c cs ih =>
    cases hc : w.getFormattedValue r c with
    | error e =>
      refine ⟨c, List.mem_cons_self _ _, e, hc, ?_⟩
      simp [Writer.resolveRow, hc]
    | ok v =>
      obtain ⟨c0, hc0, e0, he0⟩ := h
      rcases List.mem_cons.mp hc0 with h1 | h2
      · subst h1; rw [hc] at he0; exact absurd he0 (by simp)
      · obtain ⟨c1, hc1, e1, he1, hres⟩ := ih ⟨c0, h2, e0, he0⟩
        refine ⟨c1, List.mem_cons_of_mem c hc1, e1, he1, ?_⟩
        simp [Writer.resolveRow, hc, hres]

theorem readAll_rows_append (header : List String) (rows : List (List String))
    (h : ∀ r ∈ rows, r.length = header.length) (tail : List RawItem) :
    Reader.readAll header (rows.map RawItem.row ++ tail) =
      match Reader.readAll header tail with
      | .error e => .error e
      | .ok rs => .ok (rows.map (fun fs => header.zip fs) ++ rs) := by
  induction rows with
  | nil =>
    simp only [List.map_nil, List.nil_append]
    cases Reader.readAll header tail <;> rfl
  | cons r rows ih =>
    have hr : r.length = header.length := h r (List.mem_cons_self _ _)
    have hrest : ∀ x ∈ rows, x.length = header.length :=
      fun x hx => h x (List.mem_cons_of_mem r hx)
    have hitem : readV2Item header (.row r) = .ok (header.zip r) := by
      simp [readV2Item, hr]
    simp only [List.map_cons, List.cons_append, Reader.readAll, hitem,
      List.append_eq, ih hrest]
    cases Reader.readAll header tail <;> rfl

/-! ## Claim theorems -/

/-- C1: `Writer` field resolution follows the exact precedence algorithm
of the spec: the candidate starts as the empty-value fallback with no
formatter, an explicit record entry overrides a registered default, the
default textual formatter kicks in only when neither carried a formatter;
in particular `setDefault("age", 18)` writes "18" for a record missing
"age" and "30" for a record carrying 30. -/
theorem writer_resolution_follows_spec :
    (∀ (w : Writer) (r : Record) (c : String),
      Writer.getFormattedValue w r c = specResolveField w r c) ∧
    ((mkWriter ["age"]).setDefault "age" (.int 18) []).getFormattedValue
      NewRecord "age" = .ok "18" ∧
    ((mkWriter ["age"]).setDefault "age" (.int 18) []).getFormattedValue
      (NewRecord.set "age" (.int 30) []) "age" = .ok "30" :=
  ⟨fun _ _ _ => rfl, rfl, rfl⟩

/-- C2: round-trip — writing the Record {first_name: "Holly", age: 27}
through a Writer with header [first_name, age] hands the codec exactly the
row ["Holly", "27"], whose comma-delimited line is `Holly,27\n`; parsing
that line back and reading it through a Reader with the same header yields
a Record whose `get("first_name")` is "Holly" and `getInt("age")` is 27. -/
theorem write_read_roundtrip :
    Writer.writeTrace (mkWriter ["first_name", "age"])
        ((NewRecord.set "first_name" (.str "Holly") []).set "age" (.int 27) []) =
      ([["Holly", "27"]], none) ∧
    csvWriteLine ["Holly", "27"] = "Holly,27\n" ∧
    csvParseSimpleLine "Holly,27\n" = ["Holly", "27"] ∧
    Reader.read ["first_name", "age"] [.row (csvParseSimpleLine "Holly,27\n")] =
      (.result [("first_name", "Holly"), ("age", "27")] none, []) ∧
    (recordOfFields [("first_name", "Holly"), ("age", "27")]).get "first_name" =
      .ok "Holly" ∧
    (recordOfFields [("first_name", "Holly"), ("age", "27")]).getInt "age" =
      .ok 27 :=
  ⟨rfl, rfl, rfl, rfl, rfl, rfl⟩

/-- C3: the read-path `Record.Get` of src/unnamed/part_002 returns
`ErrUnknownKey` for absent names and `ErrOutOfBounds` for negative
indices, but its guard `i > len(values)` lets the boundary index
`i = len(values)` through to `values[i]`, a runtime panic — contradicting
both the claim and the function's own documentation, which promise
`ErrOutOfBounds` for every index outside the value sequence. -/
theorem readrecord_get_panics_at_boundary :
    ReadRecord.get ⟨fun k => if k = "age" then some 0 else none, []⟩ "age" =
      .panicked ∧
    ReadRecord.get ⟨fun k => if k = "age" then some 0 else none, []⟩ "age" ≠
      .outOfBounds "age" 0 ∧
    ReadRecord.get ⟨fun k => if k = "age" then some (-1) else none, []⟩ "age" =
      .outOfBounds "age" (-1) ∧
    ReadRecord.get ⟨fun k => if k = "age" then some 0 else none, []⟩ "missing" =
      .unknownKey "missing" :=
  ⟨rfl, by decide, rfl, rfl⟩

/-- C4 (counterexample): `Record.Get` of record.go does not resolve the
value through the entry's stored formatter — an entry for "name" storing
value "John" with a formatter producing "JOHN" is returned as "John". -/
theorem record_get_ignores_stored_formatter_cex :
    ((NewRecord.set "name" (.str "John") [fun _ => .ok "JOHN"]).fields "name" =
      some ⟨.str "John", some (fun _ => .ok "JOHN")⟩) ∧
    ((fun _ : Value => (.ok "JOHN" : Except String String)) (.str "John") =
      .ok "JOHN") ∧
    (NewRecord.set "name" (.str "John") [fun _ => .ok "JOHN"]).get "name" =
      .ok "John" :=
  ⟨rfl, rfl, rfl⟩

/-- C4 (amended): `Record.Get` fails with `UnknownKey` when the name was
never set and otherwise ignores any stored formatter, rendering the value
in its natural textual form (string values as-is, other values through the
default formatter). -/
theorem record_get_amended (r : Record) (key : String) :
    Record.get r key =
      (match r.fields key with
       | none => .error (.unknownKey key)
       | some fld => .ok (render fld.value)) := by
  unfold Record.get
  cases r.fields key with
  | none => rfl
  | some fld =>
    obtain ⟨v, f⟩ := fld
    cases v <;> rfl

/-- C5 (counterexample): the formatter built by `chainFormatter` from zero
formatters does not fail — applied to the value "x" it succeeds with the
empty string, falsifying "for every input value it returns an error". -/
theorem chain_empty_succeeds_cex :
    chainFormatter [] (.str "x") = .ok "" :=
  rfl

/-- C5 (amended): chaining zero formatters yields a formatter that
succeeds with the empty string on every input; for a non-empty chain each
stage's output feeds the next as a string value and the first stage
failure short-circuits with that stage's error. -/
theorem chain_semantics_amended :
    (∀ value, chainFormatter [] value = .ok "") ∧
    (∀ (f : Formatter) (value : Value), chainFormatter [f] value = f value) ∧
    (∀ (f g : Formatter) (fs : List Formatter) (value : Value),
      chainFormatter (f :: g :: fs) value =
        match f value with
        | .error e => .error e
        | .ok val => chainFormatter (g :: fs) (.str val)) :=
  ⟨fun _ => rfl, fun _ _ => rfl, fun _ _ _ _ => rfl⟩

/-- C6: `Reader.Read` of reader.go returns the best-effort Record with the
field-count error for a row shorter than the header, but a row longer than
the header drives the field loop past the end of the header slice — a
runtime panic, contradicting the claim and the function's own
documentation for the longer case. -/
theorem reader_read_field_count_mismatch :
    Reader.read ["a", "b"] [.row ["x"]] =
      (.result [("a", "x")] (some .errFieldCount), []) ∧
    Reader.read ["a", "b"] [.row ["x", "y", "z"]] = (.panicked, []) :=
  ⟨rfl, rfl⟩

/-- C7: `ReadAll` reads until end of stream and treats it as success,
returning everything accumulated with no error — in particular the empty
sequence on an immediately-empty stream with a pre-supplied header — while
any other error aborts with the partial records discarded. -/
theorem readall_eof_is_success (header : List String) (rows : List (List String))
    (hrows : ∀ r ∈ rows, r.length = header.length) (e : String)
    (rest : List RawItem) :
    Reader.readAll header [] = .ok [] ∧
    Reader.readAll header (rows.map RawItem.row) =
      .ok (rows.map (fun fs => header.zip fs)) ∧
    Reader.readAll header (rows.map RawItem.row ++ RawItem.ioError e :: rest) =
      .error (.ioErr e) := by
  refine ⟨rfl, ?_, ?_⟩
  · have h := readAll_rows_append header rows hrows []
    rw [List.append_nil] at h
    rw [h]
    show Except.ok (rows.map (fun fs => header.zip fs) ++ []) = _
    rw [List.append_nil]
  · have h := readAll_rows_append header rows hrows (RawItem.ioError e :: rest)
    rw [h]
    rfl

/-- Witness for C7 at header ["a"], one good row, then an I/O failure. -/
theorem readall_eof_is_success_witness :
    Reader.readAll ["a"] [] = .ok [] ∧
    Reader.readAll ["a"] (([["x"]] : List (List String)).map RawItem.row) =
      .ok (([["x"]] : List (List String)).map
        (fun fs => (["a"] : List String).zip fs)) ∧
    Reader.readAll ["a"]
        (([["x"]] : List (List String)).map RawItem.row ++
          RawItem.ioError "boom" :: []) =
      .error (.ioErr "boom") :=
  readall_eof_is_success ["a"] [["x"]] (by decide) "boom" []

/-- C8 (counterexample): the empty header is pairwise-distinct, yet
constructing a Reader with it over an empty stream fails (with the
end-of-stream error, since an empty supplied header makes `NewReader` read
the header row from the stream). -/
theorem newreader_empty_header_fails_cex :
    List.Nodup ([] : List String) ∧ NewReader [] [] = .error .eof :=
  ⟨List.nodup_nil, rfl⟩

/-- C8 (amended): a header with a repeated name makes both `NewWriter` and
`NewReader` fail with `DuplicateKey` carrying a name that indeed repeats;
a duplicate-free header always succeeds for `NewWriter`, and for
`NewReader` whenever it is nonempty (an empty header is treated as absent
and read from the stream instead). -/
theorem header_duplicate_check_amended (header : List String)
    (stream : List RawItem) :
    (findDuplicate [] header = none ↔ header.Nodup) ∧
    (∀ k, findDuplicate [] header = some k → 2 ≤ header.count k) ∧
    (NewWriter header =
      match findDuplicate [] header with
      | some k => .error (.duplicateKey k)
      | none => .ok (mkWriter header)) ∧
    (header ≠ [] →
      NewReader header stream =
        match findDuplicate [] header with
        | some k => .error (.duplicateKey k)
        | none => .ok (header, stream)) := by
  refine ⟨?_, ?_, rfl, ?_⟩
  · rw [findDuplicate_none_iff]
    simp
  · intro k hk
    rcases findDuplicate_some [] header k hk with ⟨hs, _⟩ | h2
    · simp at hs
    · exact h2
  · intro hne
    cases header with
    | nil => exact absurd rfl hne
    | cons h t => rfl

/-- Witness for C8 (amended) at the duplicated header [a, b, a]. -/
theorem header_duplicate_check_amended_witness :
    2 ≤ (["a", "b", "a"] : List String).count "a" ∧
    NewWriter ["a", "b", "a"] = .error (.duplicateKey "a") ∧
    NewReader ["a", "b", "a"] [] = .error (.duplicateKey "a") := by
  have h := header_duplicate_check_amended ["a", "b", "a"] []
  exact ⟨h.2.1 "a" rfl, h.2.2.1, h.2.2.2 (by decide)⟩

/-- C9: when a record entry carries its own formatter and the Writer has a
column-level formatter for that column, the resolved output chains the
value-level (or default) formatter first and the column-level formatter
last; concretely, `setFormatter("name", stringFormatter("Mr. %v"))` with a
record-level `stringFormatter("%v Jr.")` turns "John" into
"Mr. John Jr.". -/
theorem column_formatter_applied_last (w : Writer) (r : Record) (c : String)
    (fld : Field) (g : Formatter)
    (hf : r.fields c = some fld) (hg : w.formatters c = some g) :
    w.getFormattedValue r c =
      chainFormatter [fld.formatter.getD defaultFormatter, g] fld.value ∧
    ((mkWriter ["name"]).setFormatter "name"
          [StringFormatter "Mr. " ""]).getFormattedValue
        (NewRecord.set "name" (.str "John") [StringFormatter "" " Jr."]) "name" =
      .ok "Mr. John Jr." := by
  constructor
  · unfold Writer.getFormattedValue
    rw [hf, hg]
    obtain ⟨v, fo⟩ := fld
    cases fo <;> rfl
  · rfl

/-- Witness for C9 at the concrete writer and record of the claim. -/
theorem column_formatter_applied_last_witness :
    ((mkWriter ["name"]).setFormatter "name"
          [StringFormatter "Mr. " ""]).getFormattedValue
        (NewRecord.set "name" (.str "John") [StringFormatter "" " Jr."]) "name" =
      .ok "Mr. John Jr." :=
  (column_formatter_applied_last
    ((mkWriter ["name"]).setFormatter "name" [StringFormatter "Mr. " ""])
    (NewRecord.set "name" (.str "John") [StringFormatter "" " Jr."]) "name"
    ⟨.str "John", some (StringFormatter "" " Jr.")⟩
    (StringFormatter "Mr. " "") rfl rfl).2

/-- C10: `Writer.Write` is atomic with respect to resolution failures —
when some header column's effective formatter fails, the call returns a
failing column's resolution error and hands no row at all to the codec. -/
theorem write_atomic_on_resolution_failure (w : Writer) (r : Record)
    (h : ∃ c ∈ w.header, ∃ e, w.getFormattedValue r c = .error e) :
    (Writer.writeTrace w r).1 = [] ∧
    ∃ c ∈ w.header, ∃ e, w.getFormattedValue r c = .error e ∧
      (Writer.writeTrace w r).2 = some e := by
  obtain ⟨c, hc, e, he, hres⟩ := resolveRow_error_of w r w.header h
  constructor
  · unfold Writer.writeTrace
    rw [hres]
  · exact ⟨c, hc, e, he, by unfold Writer.writeTrace; rw [hres]⟩

/-- Witness for C10: a record whose only column carries a time formatter
applied to a non-time value, so resolution fails and nothing is written. -/
theorem write_atomic_on_resolution_failure_witness :
    (Writer.writeTrace (mkWriter ["t"])
        (NewRecord.set "t" (.str "x") [TimeFormatter "2006"])).1 = [] ∧
    ∃ c ∈ (mkWriter ["t"]).header, ∃ e,
      (mkWriter ["t"]).getFormattedValue
          (NewRecord.set "t" (.str "x") [TimeFormatter "2006"]) c = .error e ∧
      (Writer.writeTrace (mkWriter ["t"])
          (NewRecord.set "t" (.str "x") [TimeFormatter "2006"])).2 = some e :=
  write_atomic_on_resolution_failure (mkWriter ["t"])
    (NewRecord.set "t" (.str "x") [TimeFormatter "2006"])
    ⟨"t", List.mem_cons_self _ _, "x is not a time", rfl⟩

end Csvhandler
